import Mathlib

/-!
Verification of the SIMD-Swift hardener (elzar) specification against the
pass sources `avxswift.cpp` (full hardener), `avxfloatswift.cpp` (FP-only
hardener) and `slownative.cpp` (native-cost stub).  The definitions below
are shallow embeddings translated from those C++ sources; `assert`
failures of the C++ are modelled as `none` / `.fatal` results.
-/

namespace Elzar

/-- The IR types the pass inspects, as discriminated by `Type::getTypeID`
in the C++ sources: integers of a given bit width, pointers, float,
double, vectors with an element type and a lane count, plus the kinds
that have no shadow (struct, void, label). -/
inductive LTy where
  | int : Nat → LTy
  | ptr : LTy
  | flt : LTy
  | dbl : LTy
  | vec : LTy → Nat → LTy
  | struc : LTy
  | voidTy : LTy
  | labelTy : LTy
deriving DecidableEq, Repr

/-- Result of `getSimdNum` (avxswift.cpp lines 118-139): a lane count, a
lane count accompanied by the "handling illegal type" warning, or the
`assert` failure of the `default:` branch. -/
inductive SimdNum where
  | ok : Nat → SimdNum
  | warned : Nat → SimdNum
  | fatal : SimdNum
deriving DecidableEq, Repr

/-- Lane count of `SimdNum` when it did not abort. -/
def SimdNum.toOption : SimdNum → Option Nat
  | .ok n => some n
  | .warned n => some n
  | .fatal => none

/-- Translation of `getSimdNum` from avxswift.cpp: for an integer of
width 1 return 4; for widths other than 8/16/32/64 warn and return 4;
otherwise return 256 divided by the width.  Pointers and doubles give 4,
floats give 8; every other type id (vectors included) hits the asserting
`default:` branch. -/
def getSimdNum : LTy → SimdNum
  | .int s =>
      if s = 1 then .ok 4
      else if s ≠ 8 ∧ s ≠ 16 ∧ s ≠ 32 ∧ s ≠ 64 then .warned 4
      else .ok (256 / s)
  | .ptr => .ok 4
  | .dbl => .ok 4
  | .flt => .ok 8
  | _ => .fatal

/-- Translation of `getSimdType` from avxswift.cpp lines 141-145: `i1`
is special-cased to `<4 x i64>`; any other type becomes a vector of
itself with `getSimdNum` lanes (aborting when `getSimdNum` aborts). -/
def getSimdType (t : LTy) : Option LTy :=
  if t = .int 1 then some (.vec (.int 64) 4)
  else (getSimdNum t).toOption.map (fun n => LTy.vec t n)

/-- Translation of `isSimdType` from avxswift.cpp lines 147-151: a type
is a shadow type when it is a vector whose lane count equals
`getSimdNum` of the type itself.  Because `getSimdNum` is applied to the
vector type (not its element), it takes the asserting `default:` branch
on every vector argument; that abort is modelled as `none`. -/
def isSimdType (t : LTy) : Option Bool :=
  match t with
  | .vec e n => (getSimdNum (.vec e n)).toOption.map (fun m => decide (n = m))
  | _ => some false

/-- The FP-only variant's `getSimdNum` (avxfloatswift.cpp lines 93-100):
4 for double, 8 for float, 0 for everything else (no assert). -/
def getSimdNumFP : LTy → Nat
  | .dbl => 4
  | .flt => 8
  | _ => 0

/-- The FP-only variant's `getSimdType`: `nullptr` (here `none`) when the
lane count is 0. -/
def getSimdTypeFP (t : LTy) : Option LTy :=
  if getSimdNumFP t = 0 then none else some (.vec t (getSimdNumFP t))

/-- The FP-only variant's `isSimdType`: a vector whose lane count equals
`getSimdNumFP` of the vector type itself; since `getSimdNumFP` of a
vector type is 0, this is false for every nonempty vector. -/
def isSimdTypeFP (t : LTy) : Bool :=
  match t with
  | .vec e n => decide (n = getSimdNumFP (.vec e n))
  | _ => false

/-- An SSA value as the pass classifies it: an identifier (for shadow-map
lookup), its type, and the outcomes of the `isa<...>` tests the pass
performs: `isConst` for `isa<Constant>`, `isOpaqueKind` for the combined
`isa<BasicBlock> || isa<Function> || isa<InlineAsm> ||
isa<MetadataAsValue> || isa<InvokeInst> || isa<LandingPadInst>` test,
and `isInstr` for `isa<Instruction>` (used by `dyn_cast<Instruction>`
on shadow operands). -/
structure Val where
  id : Nat
  ty : LTy
  isConst : Bool
  isOpaqueKind : Bool
  isInstr : Bool
deriving DecidableEq, Repr

/-- A shadow SSA value: a shadow instruction (with its SSA id and its
vector type), a constant splat built by `ConstantVector::getSplat`
(recording the lane count and the splatted constant), or the looked-up
value itself when it was already of shadow type. -/
inductive Shadow where
  | instr : Nat → LTy → Shadow
  | csplat : Nat → Val → Shadow
  | self : Val → Shadow
deriving DecidableEq, Repr

/-- Outcome of `ValueSimdMap::getSimd`: an `assert` failure, a `nullptr`
(opaque value, no shadow), or a shadow. -/
inductive GetRes where
  | fatal : GetRes
  | noShadow : GetRes
  | someShadow : Shadow → GetRes
deriving DecidableEq, Repr

/-- The shadow map `V -> Vshadow`, keyed by value id. -/
def SMap := List (Nat × Shadow)

/-- Map lookup (`vsm.find`). -/
def SMap.find (m : SMap) (i : Nat) : Option Shadow :=
  List.lookup i m

/-- Translation of the full variant's `ValueSimdMap::getSimd`
(avxswift.cpp lines 213-243), in source order: a value already of shadow
type is returned as is (the `isSimdType` abort propagates); a constant
is splatted at `getSimdNum` lanes after sign-extending an `i1` constant
to `i64`, with the lane count forced to 4 when the consumer is a GEP;
basic blocks, function symbols, inline asm, metadata and non-local
control instructions yield no shadow; anything else must be in the map,
absence being the asserted programmer error. -/
def getSimd (m : SMap) (v : Val) (consumerIsGEP : Bool) : GetRes :=
  match isSimdType v.ty with
  | none => .fatal
  | some true => .someShadow (.self v)
  | some false =>
    if v.isConst then
      let cty := if v.ty = .int 1 then LTy.int 64 else v.ty
      match (getSimdNum cty).toOption with
      | none => .fatal
      | some n =>
          .someShadow (.csplat (if consumerIsGEP then 4 else n) { v with ty := cty })
    else if v.isOpaqueKind then .noShadow
    else match m.find v.id with
      | some s => .someShadow s
      | none => .fatal

/-- Translation of the FP-only variant's `ValueSimdMap::getSimd`
(avxfloatswift.cpp lines 173-212), in source order: shadow-typed values
are returned as is; opaque kinds yield no shadow; an `i1` value returns
its recorded shadow when one exists and no shadow otherwise; a value
that is neither float nor double yields no shadow; a float/double
constant is splatted; a remaining float/double value must be in the map,
absence being the asserted programmer error. -/
def getSimdFP (m : SMap) (v : Val) : GetRes :=
  if isSimdTypeFP v.ty then .someShadow (.self v)
  else if v.isOpaqueKind then .noShadow
  else if v.ty = .int 1 then
    match m.find v.id with
    | some s => .someShadow s
    | none => .noShadow
  else if v.ty ≠ .flt ∧ v.ty ≠ .dbl then .noShadow
  else if v.isConst then .someShadow (.csplat (getSimdNumFP v.ty) v)
  else match m.find v.id with
    | some s => .someShadow s
    | none => .fatal

/-- The instruction shapes relevant to the sink analysis of the full
hardener: loads, stores, conditional and unconditional branches, calls
(to a non-ignored, non-intrinsic callee; `callee = some fp` is an
indirect call through the function pointer `fp`, `none` a direct call),
the two atomics, and the vector instructions the rewriter refuses
(avxswift.cpp lines 288-292). -/
inductive Instr where
  | load : Val → LTy → Instr
  | store : Val → Val → Instr
  | condbr : Val → Instr
  | uncondbr : Instr
  | call : Option Val → List Val → LTy → Instr
  | cmpxchg : Val → Val → Val → Instr
  | rmw : Val → Val → Instr
  | insertElem : Instr
  | extractElem : Instr
  | shuffleVec : Instr
deriving DecidableEq, Repr

/-- `isa<BranchInst>` on the modelled instruction. -/
def Instr.isBranchI : Instr → Bool
  | .condbr _ => true
  | .uncondbr => true
  | _ => false

/-- `isa<LoadInst>` on the modelled instruction. -/
def Instr.isLoadI : Instr → Bool
  | .load _ _ => true
  | _ => false

/-- `isa<StoreInst>` on the modelled instruction. -/
def Instr.isStoreI : Instr → Bool
  | .store _ _ => true
  | _ => false

/-- `isa<AtomicCmpXchgInst> || isa<AtomicRMWInst>` on the modelled
instruction. -/
def Instr.isAtomicI : Instr → Bool
  | .cmpxchg _ _ _ => true
  | .rmw _ _ => true
  | _ => false

/-- `isa<CallInst>` on the modelled instruction. -/
def Instr.isCallI : Instr → Bool
  | .call _ _ _ => true
  | _ => false

/-- `dyn_cast<Instruction>` applied to a shadow value: shadow
instructions cast to their id and type; constant splats are not
instructions; a value returned as its own shadow casts iff it is an
instruction. -/
def Shadow.asInstr : Shadow → Option (Nat × LTy)
  | .instr i t => some (i, t)
  | .csplat _ _ => none
  | .self v => if v.isInstr then some (v.id, v.ty) else none

/-- One entry of the `tocheck` work list: the sink instruction, the
`dyn_cast<Instruction>` of the shadow operand, and the operand index
(`-1` encodes the called-function-pointer slot). -/
structure ToCheck where
  sink : Instr
  shadow : Option (Nat × LTy)
  opIdx : Int
deriving DecidableEq, Repr

/-- Translation of `SwiftTransformer::extractSimdOpAndSubstitute`
(avxswift.cpp lines 259-271), restricted to its `tocheck` bookkeeping:
when the operand has a shadow, one entry carrying
`dyn_cast<Instruction>` of that shadow is queued; an opaque operand
queues nothing; a `getSimd` abort propagates. -/
def extractCheck (m : SMap) (I : Instr) (v : Val) (idx : Int) :
    Option (List ToCheck) :=
  match getSimd m v false with
  | .fatal => none
  | .noShadow => some []
  | .someShadow s => some [⟨I, s.asInstr, idx⟩]

/-- The per-argument loop of the call case of `simdInst` (avxswift.cpp
lines 567-570): each argument is extracted and queued at its operand
index, in order. -/
def callArgChecks (m : SMap) (I : Instr) : List Val → Nat → Option (List ToCheck)
  | [], _ => some []
  | a :: rest, i => do
      let l0 ← extractCheck m I a (Int.ofNat i)
      let l1 ← callArgChecks m I rest (i + 1)
      return l0 ++ l1

/-- The `tocheck` entries queued by `SwiftTransformer::simdInst` of the
full hardener for each sink shape, in queueing order: loads queue their
address (operand 0); stores queue value then pointer (operands 0, 1); a
conditional branch with non-constant condition queues its condition
shadow through `cast<Instruction>` (which aborts on a non-instruction);
cmpxchg queues operands 0-2 and atomicrmw operands 0-1; a call queues
the function-pointer shadow at index `-1` when indirect, then each
argument; vector instructions abort. -/
def simdInstChecks (m : SMap) : Instr → Option (List ToCheck)
  | .insertElem => none
  | .extractElem => none
  | .shuffleVec => none
  | .load a rt => extractCheck m (.load a rt) a 0
  | .store v p => do
      let l0 ← extractCheck m (.store v p) v 0
      let l1 ← extractCheck m (.store v p) p 1
      return l0 ++ l1
  | .condbr c =>
      if c.isConst then some []
      else
        match getSimd m c false with
        | .fatal => none
        | .noShadow => none
        | .someShadow s =>
          match s.asInstr with
          | some st => some [⟨.condbr c, some st, 0⟩]
          | none => none
  | .uncondbr => some []
  | .cmpxchg p c n => do
      let l0 ← extractCheck m (.cmpxchg p c n) p 0
      let l1 ← extractCheck m (.cmpxchg p c n) c 1
      let l2 ← extractCheck m (.cmpxchg p c n) n 2
      return l0 ++ l1 ++ l2
  | .rmw p v => do
      let l0 ← extractCheck m (.rmw p v) p 0
      let l1 ← extractCheck m (.rmw p v) v 1
      return l0 ++ l1
  | .call callee args rt => do
      let fp ←
        match callee with
        | none => some ([] : List ToCheck)
        | some f =>
          match getSimd m f false with
          | .fatal => none
          | .noShadow => none
          | .someShadow s => some [⟨.call callee args rt, s.asInstr, -1⟩]
      let la ← callArgChecks m (.call callee args rt) args 0
      return fp ++ la

/-- The pass's command-line check-disable flags. -/
structure Flags where
  noAll : Bool
  noBranch : Bool
  noLoad : Bool
  noStore : Bool
  noAtomic : Bool
  noCall : Bool
deriving DecidableEq, Repr

/-- All flags clear: every check enabled. -/
def flags0 : Flags := ⟨false, false, false, false, false, false⟩

/-- The type-directed majority-vote helpers of the runtime. -/
inductive Helper where
  | chk_i8 | chk_i16 | chk_i32 | chk_i64 | chk_float | chk_double
deriving DecidableEq, Repr

/-- Helper selection of `insertChecks` (avxswift.cpp lines 725-747) by
the element type of the shadow, in source order: pointers go through the
`ptrtoint`/`check_i64`/`inttoptr` path (the Boolean records it), the
four integer widths and double/float pick their helper, and any other
element type aborts. -/
def elemHelper : LTy → Option (Helper × Bool)
  | .ptr => some (.chk_i64, true)
  | .int 64 => some (.chk_i64, false)
  | .int 32 => some (.chk_i32, false)
  | .int 16 => some (.chk_i16, false)
  | .int 8 => some (.chk_i8, false)
  | .dbl => some (.chk_double, false)
  | .flt => some (.chk_float, false)
  | _ => none

/-- What `insertChecks` does with one `tocheck` entry: nothing, the
split-block branch protocol, an inline helper call substituted at the
given operand index, or the asserting abort on an unhandled shadow
element type. -/
inductive CheckAct where
  | skipped : CheckAct
  | branchCheckAt : ToCheck → CheckAct
  | inserted : Helper → Bool → Int → CheckAct
  | fatalTy : CheckAct
deriving DecidableEq, Repr

/-- Translation of the per-entry dispatch of
`SwiftTransformer::insertChecks` (avxswift.cpp lines 661-764): branches
take the split-block path unless disabled; entries whose shadow is not
an instruction are skipped; the per-category disables skip loads,
stores, atomics and calls; otherwise the helper chosen from the shadow's
element type is called and its lane 0 substituted at the entry's operand
index. -/
def checkEntry (fl : Flags) (e : ToCheck) : CheckAct :=
  if e.sink.isBranchI then
    if fl.noBranch then .skipped else .branchCheckAt e
  else
    match e.shadow with
    | none => .skipped
    | some (_, sty) =>
      if fl.noLoad ∧ e.sink.isLoadI then .skipped
      else if fl.noStore ∧ e.sink.isStoreI then .skipped
      else if fl.noAtomic ∧ e.sink.isAtomicI then .skipped
      else if fl.noCall ∧ e.sink.isCallI then .skipped
      else
        match sty with
        | .vec et _ =>
          match elemHelper et with
          | some (h, viaPtr) => .inserted h viaPtr e.opIdx
          | none => .fatalTy
        | _ => .fatalTy

/-- Translation of the `insertChecks` driver: nothing at all under
`no-check-all`, otherwise the work list is processed in reverse
insertion order. -/
def insertChecks (fl : Flags) (l : List ToCheck) : List CheckAct :=
  if fl.noAll then [] else l.reverse.map (checkEntry fl)

/-- List elements numbered from a starting index. -/
def enumFrom {α : Type} : Nat → List α → List (Nat × α)
  | _, [] => []
  | i, a :: rest => (i, a) :: enumFrom (i + 1) rest

/-- The operand positions of a sink that `simdInst` runs
`extractSimdOpAndSubstitute` on (or, for branch conditions and indirect
callees, queues directly): the load address, the store value and
pointer, the branch condition, the three cmpxchg and two atomicrmw
operands, and for calls the indirect callee at index `-1` followed by
every argument. -/
def Instr.checkedOperands : Instr → List (Int × Val)
  | .load a _ => [(0, a)]
  | .store v p => [(0, v), (1, p)]
  | .condbr c => [(0, c)]
  | .cmpxchg p c n => [(0, p), (1, c), (2, n)]
  | .rmw p v => [(0, p), (1, v)]
  | .call callee args _ =>
      (match callee with
        | some f => [((-1 : Int), f)]
        | none => []) ++
      (enumFrom 0 args).map (fun q => (Int.ofNat q.1, q.2))
  | _ => []

/-- SSA values referenced by the code the branch-check injector emits:
the queued shadow-predicate instruction, the `<4 x i64>` all-ones splat
of `getSimdAllOnes`, results of previously emitted operations of the
head or then block (by position), and i32 integer constants. -/
inductive CVal where
  | shadowRef : Nat → CVal
  | allOnes : CVal
  | headRef : Nat → CVal
  | thenRef : Nat → CVal
  | cint : Nat → CVal
deriving DecidableEq, Repr

/-- The operations the branch-check injector emits: the two AVX ptest
intrinsic calls, the integer comparison producing the scalar flag, and
the `SIMDSWIFT_mask_i64` majority-vote call. -/
inductive COp where
  | ptestnzc : CVal → CVal → COp
  | ptestz : CVal → CVal → COp
  | icmpEq : CVal → CVal → COp
  | maskCall : CVal → COp
deriving DecidableEq, Repr

/-- A successor label of an emitted branch: one of the three blocks of
the split, or an original successor block of the function. -/
inductive BlockRef where
  | headName : BlockRef
  | thenName : BlockRef
  | tailName : BlockRef
  | orig : Nat → BlockRef
deriving DecidableEq, Repr

/-- A conditional branch: condition, true successor, false successor,
and optional branch-weight metadata. -/
structure CondBr where
  cond : CVal
  succTrue : BlockRef
  succFalse : BlockRef
  weights : Option (Nat × Nat)
deriving DecidableEq, Repr

/-- A basic-block terminator in the emitted code: a conditional branch
or the scaffold `unreachable`. -/
inductive Term where
  | condbr : CondBr → Term
  | unreachableTerm : Term
deriving DecidableEq, Repr

/-- A basic block of emitted code. -/
structure BBlock where
  body : List COp
  term : Term
deriving DecidableEq, Repr

/-- The three blocks a split-block branch check produces. -/
structure SplitOut where
  headBlk : BBlock
  thenBlk : BBlock
  tailBlk : BBlock
deriving DecidableEq, Repr

/-- Model of LLVM `SplitBlockAndInsertIfThen` with `Unreachable = true`:
the original block keeps its first `k` operations and is terminated by a
conditional branch, carrying the given branch weights, to the new then
block (true) and the tail (false); the then block starts empty with an
`unreachable` scaffold terminator; the tail receives the remaining
operations and the original terminator. -/
def splitIfThen (b : BBlock) (k : Nat) (cond : CVal) (w : Nat × Nat) :
    SplitOut :=
  ⟨⟨b.body.take k, .condbr ⟨cond, .thenName, .tailName, some w⟩⟩,
    ⟨[], .unreachableTerm⟩,
    ⟨b.body.drop k, b.term⟩⟩

/-- Translation of the branch arm of `SwiftTransformer::insertChecks`
(avxswift.cpp lines 666-712), applied to a block whose operations before
the branch are `pre`, whose terminator is the original conditional
branch `orig`, with `P` the queued 4-lane i64 shadow predicate: first
`ptestnzc(P, allOnes)` and the `== 1` comparison are emitted before the
branch; the block is split there with weights (1, 10000); inside the
then block `mask_i64(P)`, `ptestz(corrected, allOnes)` and the `== 0`
comparison are emitted before the scaffold terminator and a clone of the
original branch with the corrected condition is inserted; finally the
scaffold terminator is erased, leaving the clone as the then block's
terminator. -/
def branchCheck (pre : List COp) (orig : CondBr) (P : Nat) : SplitOut :=
  let blk : BBlock :=
    ⟨pre ++ [.ptestnzc (.shadowRef P) .allOnes,
        .icmpEq (.headRef pre.length) (.cint 1)],
      .condbr orig⟩
  let s := splitIfThen blk (pre.length + 2) (.headRef (pre.length + 1))
    (1, 10000)
  let thenOps : List COp :=
    [.maskCall (.shadowRef P), .ptestz (.thenRef 0) .allOnes,
      .icmpEq (.thenRef 1) (.cint 0)]
  let cloneBI : CondBr := { orig with cond := .thenRef 2 }
  ⟨s.headBlk, { s.thenBlk with body := thenOps, term := .condbr cloneBI },
    s.tailBlk⟩

/-- Translation of `SwiftTransformer::rewirePhis` (avxswift.cpp lines
619-635) for one φ node, whose incoming slots pair a predecessor block
id with the incoming value: each slot's shadow is looked up with
`getSimd` and bound to the same predecessor block; a slot whose value
has no shadow (opaque) is dropped; a `getSimd` abort propagates. -/
def rewireOnePhi (m : SMap) : List (Nat × Val) → Option (List (Nat × Shadow))
  | [] => some []
  | (b, v) :: rest =>
    match getSimd m v false, rewireOnePhi m rest with
    | .fatal, _ => none
    | _, none => none
    | .noShadow, some tl => some tl
    | .someShadow s, some tl => some ((b, s) :: tl)

/-- Translation of the φ fix-up in the branch arm of `insertChecks`
(avxswift.cpp lines 698-709) for one φ node of a successor block: when
the φ has an incoming value for the block of the original branch
(`getIncomingValueForBlock`, first match), that same value is bound once
more with `addIncoming`, incoming from the new check block. -/
def phiAddCheckEdge (inc : List (Nat × Shadow)) (borig bchk : Nat) :
    List (Nat × Shadow) :=
  match List.lookup borig inc with
  | some v => inc ++ [(bchk, v)]
  | none => inc

/-- The three dummy AVX marker helpers of the native-cost runtime. -/
inductive Marker where
  | dummyExtract : Marker
  | dummyBroadcast : Marker
  | dummyPtest : Marker
deriving DecidableEq, Repr

/-- Translation of the native-cost variant's
`SwiftTransformer::simdInst` (slownative.cpp lines 94-152), as the pair
of marker-call lists inserted before and after the instruction: a
conditional branch with non-constant condition gets one `dummy_ptest`
before (a constant condition returns early, like an unconditional
branch); a load gets one `dummy_extract` before when its pointer operand
is not a constant, and one `dummy_broadcast` after; a store gets one
`dummy_extract` per non-constant operand (pointer tested first, then
value); cmpxchg and atomicrmw get one `dummy_extract` per non-constant
operand and one `dummy_broadcast` after; every other instruction,
calls included, is untouched. -/
def slowInst : Instr → List Marker × List Marker
  | .condbr c => if c.isConst then ([], []) else ([.dummyPtest], [])
  | .load a _ =>
      ((if a.isConst then [] else [.dummyExtract]), [.dummyBroadcast])
  | .store v p =>
      ((if p.isConst then [] else [.dummyExtract]) ++
        (if v.isConst then [] else [.dummyExtract]), [])
  | .cmpxchg p c n =>
      ((if p.isConst then [] else [.dummyExtract]) ++
        (if c.isConst then [] else [.dummyExtract]) ++
        (if n.isConst then [] else [.dummyExtract]), [.dummyBroadcast])
  | .rmw p v =>
      ((if p.isConst then [] else [.dummyExtract]) ++
        (if v.isConst then [] else [.dummyExtract]), [.dummyBroadcast])
  | _ => ([], [])

/-- The check-related command-line options registered by avxswift.cpp
lines 71-88. -/
def avxswiftOpts : List String :=
  ["no-check-all", "no-check-branch", "no-check-load", "no-check-store",
    "no-check-atomic", "no-check-call"]

/-- The check-related command-line options registered by
avxfloatswift.cpp lines 57-71: there is no `no-check-load` option. -/
def avxfloatswiftOpts : List String :=
  ["no-check-all", "no-check-branch", "no-check-store",
    "no-check-atomic", "no-check-call"]

/-- slownative.cpp registers no check-related command-line options. -/
def slownativeOpts : List String := []

/-- The per-(block, instruction) positions of a function body, blocks in
traversal order (the depth-first dominator order of `runOnFunction`
always starts at the entry block), instructions in block order. -/
def instStream (blocks : List (List Instr)) : List (Nat × Nat) :=
  ((enumFrom 0 blocks).map
    (fun bb => (enumFrom 0 bb.2).map (fun ii => (bb.1, ii.1)))).flatten

/-- The observable events of the rewriting loop: the one-time
argument-shadowing step (with the position it is inserted at) and the
per-instruction rewrite. -/
inductive Event where
  | argsShadowed : Nat → Nat → Event
  | visited : Nat → Nat → Event
deriving DecidableEq, Repr

/-- Whether an event is the argument-shadowing step. -/
def Event.isArgs : Event → Bool
  | .argsShadowed _ _ => true
  | _ => false

/-- The instruction loop of `SwiftPass::runOnFunction` (avxswift.cpp
lines 804-825): before rewriting an instruction, if the `shadowedArgs`
flag is still clear, `simdArgs` is invoked at that instruction and the
flag is set; then the instruction itself is rewritten. -/
def runLoop : Bool → List (Nat × Nat) → List Event
  | _, [] => []
  | true, p :: rest => .visited p.1 p.2 :: runLoop true rest
  | false, p :: rest =>
      .argsShadowed p.1 p.2 :: .visited p.1 p.2 :: runLoop true rest

/-- The event trace of one `runOnFunction` over a function body. -/
def runEvents (blocks : List (List Instr)) : List Event :=
  runLoop false (instStream blocks)

/-- The splat instructions `createSimdValue` emits (avxswift.cpp lines
153-160). -/
inductive SimOp where
  | zextTo64 : Val → SimOp
  | insertLane : Nat → Val → SimOp
deriving DecidableEq, Repr

/-- Translation of the full variant's `createSimdValue`: an `i1` value
is first zero-extended to i64; then the value is inserted lane by lane,
one insert-element per lane of the canonical lane count; a type that
`getSimdNum` aborts on is fatal. -/
def createSimdValueOps (v : Val) : Option (List SimOp) :=
  match (getSimdNum (if v.ty = .int 1 then LTy.int 64 else v.ty)).toOption with
  | none => none
  | some n =>
      some ((if v.ty = .int 1 then [SimOp.zextTo64 v] else []) ++
        (List.range n).map (fun i => SimOp.insertLane i v))

/-- Translation of the full variant's `SwiftTransformer::simdArgs`
(avxswift.cpp lines 607-617): every function argument is splatted, in
order, and paired with its splat sequence; each pair is registered in
the shadow map. -/
def simdArgsFull : List Val → Option (List (Val × List SimOp))
  | [] => some []
  | a :: rest => do
      let ops ← createSimdValueOps a
      let tl ← simdArgsFull rest
      return (a, ops) :: tl

/-- Translation of the FP-only variant's `SwiftTransformer::simdArgs`
(avxfloatswift.cpp lines 580-592): only float and double arguments are
splatted, with `getSimdNumFP` lanes and no i1 widening. -/
def simdArgsFP (args : List Val) : List (Val × List SimOp) :=
  (args.filter (fun a => decide (a.ty = .flt ∨ a.ty = .dbl))).map
    (fun a => (a, (List.range (getSimdNumFP a.ty)).map
      (fun i => SimOp.insertLane i a)))

/-- Claim C1: the full hardener's shadow-type utility returns the
canonical lane count making the shadow 256 bits wide: 32 for i8, 16 for
i16, 8 for i32, 4 for i64 and pointers, 8 for float, 4 for double; `i1`
is lifted to the 4-lane 64-bit integer vector; any other integer width
is handled conservatively as 4 lanes with a warning. -/
theorem C1_shadow_lanes :
    getSimdNum (.int 8) = .ok 32 ∧
    getSimdNum (.int 16) = .ok 16 ∧
    getSimdNum (.int 32) = .ok 8 ∧
    getSimdNum (.int 64) = .ok 4 ∧
    getSimdNum .ptr = .ok 4 ∧
    getSimdNum .flt = .ok 8 ∧
    getSimdNum .dbl = .ok 4 ∧
    getSimdType (.int 1) = some (.vec (.int 64) 4) ∧
    (∀ s : Nat, s ≠ 1 → s ≠ 8 → s ≠ 16 → s ≠ 32 → s ≠ 64 →
      getSimdNum (.int s) = .warned 4) := by
  refine ⟨rfl, rfl, rfl, rfl, rfl, rfl, rfl, rfl, ?_⟩
  intro s h1 h8 h16 h32 h64
  simp [getSimdNum, h1, h8, h16, h32, h64]

/-- Witness for C1 at the concrete non-canonical width 7. -/
theorem C1_shadow_lanes_witness : getSimdNum (.int 7) = .warned 4 :=
  C1_shadow_lanes.2.2.2.2.2.2.2.2 7 (by decide) (by decide) (by decide)
    (by decide) (by decide)

/-- Claim C6: in the FP-only variant, `getSimd` on a value that is not
float, not double and not of shadow vector type never aborts: it returns
the recorded shadow for an `i1` value that has one, and `none` in every
other case, even when the value is absent from the map; only a float or
double value (non-constant, non-opaque) absent from the map aborts. -/
theorem C6_fp_getsimd_none :
    (∀ (m : SMap) (v : Val), v.ty ≠ .flt → v.ty ≠ .dbl →
      isSimdTypeFP v.ty = false →
      getSimdFP m v ≠ .fatal ∧
      (∀ s, v.isOpaqueKind = false → v.ty = .int 1 → m.find v.id = some s →
        getSimdFP m v = .someShadow s) ∧
      ((v.ty = .int 1 → v.isOpaqueKind = true ∨ m.find v.id = none) →
        getSimdFP m v = .noShadow)) ∧
    (∀ (m : SMap) (v : Val), (v.ty = .flt ∨ v.ty = .dbl) →
      v.isOpaqueKind = false → v.isConst = false → m.find v.id = none →
      getSimdFP m v = .fatal) := by
  constructor
  · intro m v hf hd hs
    refine ⟨?_, ?_, ?_⟩
    · intro hcontra
      by_cases h1 : v.ty = .int 1
      · simp only [getSimdFP, h1, isSimdTypeFP] at hcontra
        rcases hop : v.isOpaqueKind with _ | _ <;> simp [hop] at hcontra
        rcases hfind : m.find v.id with _ | s <;> simp [hfind] at hcontra
      · simp only [getSimdFP, hs, Bool.false_eq_true, if_false] at hcontra
        rcases hop : v.isOpaqueKind with _ | _ <;> simp [hop, h1, hf, hd] at hcontra
    · intro s hop h1 hfind
      simp [getSimdFP, h1, isSimdTypeFP, hop, hfind]
    · intro hcase
      by_cases h1 : v.ty = .int 1
      · rcases hcase h1 with hop | hfind
        · simp [getSimdFP, h1, isSimdTypeFP, hop]
        · rcases hop : v.isOpaqueKind with _ | _
          · simp [getSimdFP, h1, isSimdTypeFP, hop, hfind]
          · simp [getSimdFP, h1, isSimdTypeFP, hop]
      · rcases hop : v.isOpaqueKind with _ | _
        · simp [getSimdFP, hs, hop, h1, hf, hd]
        · simp [getSimdFP, hs, hop]
  · intro m v hfd hop hc hfind
    rcases hfd with h | h <;>
      simp [getSimdFP, isSimdTypeFP, h, hop, hc, hfind, getSimdNumFP]

/-- Witness for C6: a non-FP, non-shadow i32 register value absent from
the map yields no shadow and no abort, while a float register value
absent from the map aborts. -/
theorem C6_fp_getsimd_none_witness :
    getSimdFP [] ⟨0, .int 32, false, false, true⟩ = .noShadow ∧
    getSimdFP [] ⟨1, .flt, false, false, true⟩ = .fatal := by
  constructor
  · exact (C6_fp_getsimd_none.1 [] ⟨0, .int 32, false, false, true⟩
      (by decide) (by decide) (by decide)).2.2 (by intro h; cases h)
  · exact C6_fp_getsimd_none.2 [] ⟨1, .flt, false, false, true⟩
      (Or.inl rfl) rfl rfl rfl

/-- An action produced from a queued entry appears in the injector's
output when no flag disables everything. -/
theorem mem_insertChecks_of_mem {e : ToCheck} {l : List ToCheck}
    (he : e ∈ l) : checkEntry flags0 e ∈ insertChecks flags0 l := by
  simp only [insertChecks, flags0, Bool.false_eq_true, if_false]
  exact List.mem_map_of_mem _ (List.mem_reverse.mpr he)

/-- Completeness of the call-argument loop: every argument whose shadow
exists is queued at its operand index. -/
theorem callArgChecks_complete (m : SMap) (I : Instr) :
    ∀ (rest : List Val) (i : Nat) (l : List ToCheck),
      callArgChecks m I rest i = some l →
      ∀ p ∈ enumFrom i rest, ∀ s, getSimd m p.2 false = .someShadow s →
        (⟨I, s.asInstr, Int.ofNat p.1⟩ : ToCheck) ∈ l := by
  intro rest
  induction rest with
  | nil => intro i l _ p hp; simp [enumFrom] at hp
  | cons a rest ih =>
    intro i l hrun p hp s hs
    simp only [enumFrom, List.mem_cons] at hp
    rcases hla : callArgChecks m I rest (i + 1) with _ | la
    · simp only [callArgChecks, hla, Option.bind_eq_bind] at hrun
      rcases h0 : getSimd m a false with _ | _ | s0 <;>
        simp [extractCheck, h0] at hrun
    · rcases hp with hp | hp
      · subst hp
        simp only at hs
        simp only [callArgChecks, hla, extractCheck, hs,
          Option.bind_eq_bind, Option.some_bind] at hrun
        cases hrun
        exact List.mem_append_left _ (List.mem_singleton.mpr rfl)
      · have hmem := ih (i + 1) la hla p hp s hs
        rcases h0 : getSimd m a false with _ | _ | s0 <;>
          simp only [callArgChecks, hla, extractCheck, h0,
            Option.bind_eq_bind, Option.some_bind, Option.none_bind] at hrun
        · cases hrun
        · cases hrun; exact List.mem_append_right _ hmem
        · cases hrun; exact List.mem_append_right _ hmem

/-- Claim C9 counterexample: the shadow-type test does not short-circuit
on already-wide values — on the 8-lane i32 shadow type it aborts
(`getSimdNum` has no vector case), `getSimd` on a value of that type
aborts, and the rewriter aborts outright on an insert-element
instruction of previously hardened output. -/
theorem C9_counterexample :
    isSimdType (LTy.vec (LTy.int 32) 8) = none ∧
    getSimd [] ⟨0, .vec (.int 32) 8, false, false, true⟩ false = .fatal ∧
    simdInstChecks [] .insertElem = none := by
  refine ⟨rfl, ?_, rfl⟩
  simp [getSimd, isSimdType, getSimdNum, SimdNum.toOption]

/-- Claim C9 (amended): a second run of the full hardener on its own
output produces no additional shadows only because it aborts — every
vector (shadow-width) type makes the shadow-type test fatal instead of
returning true, `getSimd` on a value of any vector type aborts rather
than returning the value itself, and the rewriter refuses the
insert/extract/shuffle vector instructions present in hardened code. -/
theorem C9_not_idempotent (e : LTy) (n : Nat) (m : SMap) (v : Val)
    (g : Bool) :
    isSimdType (.vec e n) = none ∧
    getSimd m { v with ty := .vec e n } g = .fatal ∧
    simdInstChecks m .insertElem = none ∧
    simdInstChecks m .extractElem = none ∧
    simdInstChecks m .shuffleVec = none := by
  refine ⟨?_, ?_, rfl, rfl, rfl⟩
  · simp [isSimdType, getSimdNum, SimdNum.toOption]
  · simp [getSimd, isSimdType, getSimdNum, SimdNum.toOption]

/-- Claim C4 counterexample: a store of the constant 5 to a shadowed
pointer: the constant value operand is not opaque (it has a splat
shadow), no disable flag is set, yet the injector inserts no check for
it — only the pointer operand is checked. -/
theorem C4_counterexample :
    (Val.mk 2 (.int 32) true false false).isOpaqueKind = false ∧
    getSimd [(1, .instr 10 (.vec .ptr 4))] ⟨2, .int 32, true, false, false⟩
        false
      = .someShadow (.csplat 8 ⟨2, .int 32, true, false, false⟩) ∧
    simdInstChecks [(1, .instr 10 (.vec .ptr 4))]
        (.store ⟨2, .int 32, true, false, false⟩ ⟨1, .ptr, false, false, true⟩)
      = some
          [⟨.store ⟨2, .int 32, true, false, false⟩ ⟨1, .ptr, false, false, true⟩,
              none, 0⟩,
            ⟨.store ⟨2, .int 32, true, false, false⟩ ⟨1, .ptr, false, false, true⟩,
              some (10, .vec .ptr 4), 1⟩] ∧
    insertChecks flags0
        [⟨.store ⟨2, .int 32, true, false, false⟩ ⟨1, .ptr, false, false, true⟩,
            none, 0⟩,
          ⟨.store ⟨2, .int 32, true, false, false⟩ ⟨1, .ptr, false, false, true⟩,
            some (10, .vec .ptr 4), 1⟩]
      = [.inserted .chk_i64 true 1, .skipped] := by
  refine ⟨rfl, by decide, by decide, by decide⟩

/-- Claim C4 (amended): every sink (store, branch with non-constant
condition, call to a non-ignored function, atomic, load) that reads a
non-opaque operand queues a check entry for it; with no disable flags
set, the injector turns every queued entry whose shadow is an
instruction of canonical vector type into an inserted majority-vote
check at that operand (branches via the split-block path), and silently
skips entries whose shadow is not an instruction — in particular
constant operands, whose shadow is a constant splat. -/
theorem C4_sink_checks (m : SMap) (I : Instr) (entries : List ToCheck)
    (hrun : simdInstChecks m I = some entries) :
    (∀ (idx : Int) (v : Val), (idx, v) ∈ I.checkedOperands →
      ∀ s, getSimd m v false = .someShadow s →
        v.isConst = true ∨
          ∃ e ∈ entries, e.sink = I ∧ e.opIdx = idx ∧ e.shadow = s.asInstr) ∧
    (∀ e ∈ entries,
      checkEntry flags0 e ∈ insertChecks flags0 entries ∧
      (e.sink.isBranchI = true → checkEntry flags0 e = .branchCheckAt e) ∧
      (e.sink.isBranchI = false → e.shadow = none →
        checkEntry flags0 e = .skipped) ∧
      (∀ sid et k h pc, e.sink.isBranchI = false →
        e.shadow = some (sid, .vec et k) → elemHelper et = some (h, pc) →
        checkEntry flags0 e = .inserted h pc e.opIdx)) := by
  constructor
  · intro idx v0 hp s hs
    rcases I with ⟨a, rt⟩ | ⟨v, pp⟩ | c | _ | ⟨callee, args, rt⟩ | ⟨pp, c, n⟩ |
      ⟨pp, v⟩ | _ | _ | _
    · -- load
      simp only [Instr.checkedOperands, List.mem_singleton, Prod.mk.injEq] at hp
      obtain ⟨rfl, rfl⟩ := hp
      simp only [simdInstChecks, extractCheck, hs] at hrun
      cases hrun
      exact Or.inr ⟨_, List.mem_singleton.mpr rfl, rfl, rfl, rfl⟩
    · -- store
      simp only [Instr.checkedOperands, List.mem_cons, List.mem_singleton,
        List.not_mem_nil, or_false, Prod.mk.injEq] at hp
      rcases hp with ⟨rfl, rfl⟩ | ⟨rfl, rfl⟩
      · rcases h1 : getSimd m pp false with _ | _ | s1 <;>
          simp only [simdInstChecks, extractCheck, hs, h1,
            Option.bind_eq_bind, Option.some_bind, Option.none_bind] at hrun <;>
          cases hrun <;>
          exact Or.inr ⟨_, List.mem_append_left _ (List.mem_singleton.mpr rfl),
            rfl, rfl, rfl⟩
      · rcases h0 : getSimd m v false with _ | _ | s0 <;>
          simp only [simdInstChecks, extractCheck, hs, h0,
            Option.bind_eq_bind, Option.some_bind, Option.none_bind] at hrun <;>
          cases hrun <;>
          exact Or.inr ⟨_, List.mem_append_right _ (List.mem_singleton.mpr rfl),
            rfl, rfl, rfl⟩
    · -- condbr
      simp only [Instr.checkedOperands, List.mem_singleton, Prod.mk.injEq] at hp
      obtain ⟨rfl, rfl⟩ := hp
      by_cases hc : v0.isConst
      · exact Or.inl hc
      · simp only [simdInstChecks, hc, Bool.false_eq_true, if_false, hs] at hrun
        rcases hsi : s.asInstr with _ | st
        · simp only [hsi] at hrun
          exact Option.noConfusion hrun
        · simp only [hsi] at hrun
          cases hrun
          exact Or.inr ⟨_, List.mem_singleton.mpr rfl, rfl, rfl, rfl⟩
    · -- uncondbr
      simp [Instr.checkedOperands] at hp
    · -- call
      rcases callee with _ | f
      · simp only [Instr.checkedOperands, List.nil_append, List.mem_map] at hp
        rcases hla : callArgChecks m (.call none args rt) args 0 with _ | la
        · simp only [simdInstChecks, hla, Option.bind_eq_bind,
            Option.some_bind, Option.none_bind] at hrun
          exact Option.noConfusion hrun
        · simp only [simdInstChecks, hla, Option.bind_eq_bind,
            Option.some_bind, List.nil_append] at hrun
          cases hrun
          rcases hp with ⟨q, hq, hqe⟩
          obtain ⟨h1, h2⟩ := Prod.mk.injEq .. ▸ hqe
          subst h2
          have hmem := callArgChecks_complete m (.call none args rt) args 0
            _ hla q hq s hs
          exact Or.inr ⟨_, hmem, rfl, h1, rfl⟩
      · simp only [Instr.checkedOperands, List.mem_append, List.mem_map,
          List.mem_singleton] at hp
        rcases hg : getSimd m f false with _ | _ | sf
        · simp only [simdInstChecks, hg, Option.bind_eq_bind,
            Option.none_bind] at hrun
          exact Option.noConfusion hrun
        · simp only [simdInstChecks, hg, Option.bind_eq_bind,
            Option.none_bind] at hrun
          exact Option.noConfusion hrun
        · rcases hla : callArgChecks m (.call (some f) args rt) args 0
            with _ | la
          · simp only [simdInstChecks, hg, hla, Option.bind_eq_bind,
              Option.some_bind, Option.none_bind] at hrun
            exact Option.noConfusion hrun
          · simp only [simdInstChecks, hg, hla, Option.bind_eq_bind,
              Option.some_bind] at hrun
            cases hrun
            rcases hp with hp | ⟨q, hq, hqe⟩
            · obtain ⟨rfl, rfl⟩ := Prod.mk.injEq .. ▸ hp
              rw [hs] at hg
              cases hg
              exact Or.inr ⟨_,
                List.mem_append_left _ (List.mem_singleton.mpr rfl),
                rfl, rfl, rfl⟩
            · obtain ⟨h1, h2⟩ := Prod.mk.injEq .. ▸ hqe
              subst h2
              have hmem := callArgChecks_complete m (.call (some f) args rt)
                args 0 _ hla q hq s hs
              exact Or.inr ⟨_, List.mem_append_right _ hmem, rfl, h1, rfl⟩
    · -- cmpxchg
      simp only [Instr.checkedOperands, List.mem_cons, List.mem_singleton,
        List.not_mem_nil, or_false, Prod.mk.injEq] at hp
      rcases hp with ⟨rfl, rfl⟩ | ⟨rfl, rfl⟩ | ⟨rfl, rfl⟩
      · rcases h1 : getSimd m c false with _ | _ | s1 <;>
          rcases h2 : getSimd m n false with _ | _ | s2 <;>
          simp only [simdInstChecks, extractCheck, hs, h1, h2,
            Option.bind_eq_bind, Option.some_bind, Option.none_bind] at hrun <;>
          cases hrun <;>
          exact Or.inr ⟨_,
            List.mem_append_left _
              (List.mem_append_left _ (List.mem_singleton.mpr rfl)),
            rfl, rfl, rfl⟩
      · rcases h0 : getSimd m pp false with _ | _ | s0 <;>
          rcases h2 : getSimd m n false with _ | _ | s2 <;>
          simp only [simdInstChecks, extractCheck, hs, h0, h2,
            Option.bind_eq_bind, Option.some_bind, Option.none_bind] at hrun <;>
          cases hrun <;>
          exact Or.inr ⟨_,
            List.mem_append_left _
              (List.mem_append_right _ (List.mem_singleton.mpr rfl)),
            rfl, rfl, rfl⟩
      · rcases h0 : getSimd m pp false with _ | _ | s0 <;>
          rcases h1 : getSimd m c false with _ | _ | s1 <;>
          simp only [simdInstChecks, extractCheck, hs, h0, h1,
            Option.bind_eq_bind, Option.some_bind, Option.none_bind] at hrun <;>
          cases hrun <;>
          exact Or.inr ⟨_,
            List.mem_append_right _ (List.mem_singleton.mpr rfl),
            rfl, rfl, rfl⟩
    · -- rmw
      simp only [Instr.checkedOperands, List.mem_cons, List.mem_singleton,
        List.not_mem_nil, or_false, Prod.mk.injEq] at hp
      rcases hp with ⟨rfl, rfl⟩ | ⟨rfl, rfl⟩
      · rcases h1 : getSimd m v false with _ | _ | s1 <;>
          simp only [simdInstChecks, extractCheck, hs, h1,
            Option.bind_eq_bind, Option.some_bind, Option.none_bind] at hrun <;>
          cases hrun <;>
          exact Or.inr ⟨_, List.mem_append_left _ (List.mem_singleton.mpr rfl),
            rfl, rfl, rfl⟩
      · rcases h0 : getSimd m pp false with _ | _ | s0 <;>
          simp only [simdInstChecks, extractCheck, hs, h0,
            Option.bind_eq_bind, Option.some_bind, Option.none_bind] at hrun <;>
          cases hrun <;>
          exact Or.inr ⟨_,
            List.mem_append_right _ (List.mem_singleton.mpr rfl),
            rfl, rfl, rfl⟩
    · simp only [simdInstChecks] at hrun
      exact Option.noConfusion hrun
    · simp only [simdInstChecks] at hrun
      exact Option.noConfusion hrun
    · simp only [simdInstChecks] at hrun
      exact Option.noConfusion hrun
  · intro e he
    refine ⟨mem_insertChecks_of_mem he, ?_, ?_, ?_⟩
    · intro hb
      simp [checkEntry, hb, flags0]
    · intro hb hnone
      simp [checkEntry, hb, hnone]
    · intro sid et k h pc hb hsh helem
      simp [checkEntry, hb, hsh, helem, flags0]

/-- Witness for C4 at the counterexample's store: the non-constant
pointer operand is queued and gets its check inserted. -/
theorem C4_sink_checks_witness :
    ∃ e ∈ [(⟨.store ⟨2, .int 32, true, false, false⟩ ⟨1, .ptr, false, false, true⟩,
              none, 0⟩ : ToCheck),
            ⟨.store ⟨2, .int 32, true, false, false⟩ ⟨1, .ptr, false, false, true⟩,
              some (10, .vec .ptr 4), 1⟩],
      e.sink = .store ⟨2, .int 32, true, false, false⟩ ⟨1, .ptr, false, false, true⟩ ∧
      e.opIdx = 1 ∧ e.shadow = some (10, .vec .ptr 4) := by
  have h := (C4_sink_checks [(1, .instr 10 (.vec .ptr 4))]
      (.store ⟨2, .int 32, true, false, false⟩ ⟨1, .ptr, false, false, true⟩)
      [⟨.store ⟨2, .int 32, true, false, false⟩ ⟨1, .ptr, false, false, true⟩,
          none, 0⟩,
        ⟨.store ⟨2, .int 32, true, false, false⟩ ⟨1, .ptr, false, false, true⟩,
          some (10, .vec .ptr 4), 1⟩]
      (by decide)).1
      1 ⟨1, .ptr, false, false, true⟩ (by decide)
      (.instr 10 (.vec .ptr 4)) (by decide)
  rcases h with h | h
  · cases h
  · exact h

/-- Claim C5 counterexample: the full hardener does insert a
majority-vote check-helper call on a load's address operand: on a load
through a shadowed pointer, with no flags set, the injector inserts the
pointer-path `check_i64` call for operand 0 of the load. -/
theorem C5_counterexample :
    simdInstChecks [(1, .instr 10 (.vec .ptr 4))]
        (.load ⟨1, .ptr, false, false, true⟩ (.int 32))
      = some [⟨.load ⟨1, .ptr, false, false, true⟩ (.int 32),
          some (10, .vec .ptr 4), 0⟩] ∧
    insertChecks flags0
        [⟨.load ⟨1, .ptr, false, false, true⟩ (.int 32),
            some (10, .vec .ptr 4), 0⟩]
      = [.inserted .chk_i64 true 0] := by
  exact ⟨by decide, by decide⟩

/-- Claim C5 (amended): the full hardener does check load addresses —
every `tocheck` entry a load queues is for its address operand
(index 0), and whenever that entry's shadow is an instruction of
canonical vector type with a supported element type, the injector with
no disable flags set inserts the type-directed majority-vote check for
it. -/
theorem C5_load_addresses_checked (m : SMap) (a : Val) (rt : LTy)
    (entries : List ToCheck)
    (hrun : simdInstChecks m (.load a rt) = some entries) :
    ∀ e ∈ entries, e.sink = .load a rt ∧ e.opIdx = 0 ∧
      ∀ sid et k h pc, e.shadow = some (sid, .vec et k) →
        elemHelper et = some (h, pc) →
        checkEntry flags0 e = .inserted h pc 0 ∧
        CheckAct.inserted h pc 0 ∈ insertChecks flags0 entries := by
  intro e he
  rcases hg : getSimd m a false with _ | _ | s
  · simp only [simdInstChecks, extractCheck, hg] at hrun
    exact Option.noConfusion hrun
  · simp only [simdInstChecks, extractCheck, hg] at hrun
    cases hrun
    simp at he
  · simp only [simdInstChecks, extractCheck, hg] at hrun
    cases hrun
    simp only [List.mem_singleton] at he
    subst he
    refine ⟨rfl, rfl, ?_⟩
    intro sid et k h pc hsh helem
    have h1 : checkEntry flags0
        (⟨.load a rt, Shadow.asInstr s, 0⟩ : ToCheck) = .inserted h pc 0 := by
      simp only at hsh
      simp [checkEntry, hsh, helem, flags0, Instr.isBranchI]
    refine ⟨h1, ?_⟩
    have hm := mem_insertChecks_of_mem
      (e := ⟨.load a rt, Shadow.asInstr s, 0⟩)
      (l := [⟨.load a rt, Shadow.asInstr s, 0⟩]) (List.mem_singleton.mpr rfl)
    rwa [h1] at hm

/-- Witness for C5 at the counterexample's load: the pointer-path check
is the action produced for the queued address entry. -/
theorem C5_load_addresses_checked_witness :
    checkEntry flags0
        ⟨.load ⟨1, .ptr, false, false, true⟩ (.int 32),
          some (10, .vec .ptr 4), 0⟩
      = .inserted .chk_i64 true 0 := by
  have h := C5_load_addresses_checked [(1, .instr 10 (.vec .ptr 4))]
      ⟨1, .ptr, false, false, true⟩ (.int 32)
      [⟨.load ⟨1, .ptr, false, false, true⟩ (.int 32),
          some (10, .vec .ptr 4), 0⟩]
      (by decide)
      ⟨.load ⟨1, .ptr, false, false, true⟩ (.int 32),
          some (10, .vec .ptr 4), 0⟩
      (List.mem_singleton.mpr rfl)
  exact (h.2.2 10 .ptr 4 .chk_i64 true rfl (by decide)).1

/-- Claim C2: a queued branch check (checks enabled) takes the
split-block path, and the injected structure is: the head block ends
with the `ptestnzc` test of the shadow predicate against all-ones and
the scalar flag comparing its result to 1, and branches on that flag to
the then region with weights 1:10000 in favour of the fall-through tail;
the then region calls `mask_i64` on the predicate shadow, applies the
`ptestz` zero-test to the corrected shadow, compares with 0, and is
terminated by a clone of the original branch conditioned on that
corrected test; the tail holds the original branch, unchanged. -/
theorem C2_branch_split_shape (pre : List COp) (orig : CondBr) (P : Nat) :
    checkEntry flags0
        ⟨.condbr ⟨0, .int 1, false, false, true⟩,
          some (P, .vec (.int 64) 4), 0⟩
      = .branchCheckAt
          ⟨.condbr ⟨0, .int 1, false, false, true⟩,
            some (P, .vec (.int 64) 4), 0⟩ ∧
    (branchCheck pre orig P).headBlk.body
      = pre ++ [.ptestnzc (.shadowRef P) .allOnes,
          .icmpEq (.headRef pre.length) (.cint 1)] ∧
    (branchCheck pre orig P).headBlk.term
      = .condbr ⟨.headRef (pre.length + 1), .thenName, .tailName,
          some (1, 10000)⟩ ∧
    (branchCheck pre orig P).thenBlk.body
      = [.maskCall (.shadowRef P), .ptestz (.thenRef 0) .allOnes,
          .icmpEq (.thenRef 1) (.cint 0)] ∧
    (branchCheck pre orig P).thenBlk.term
      = .condbr ⟨.thenRef 2, orig.succTrue, orig.succFalse, orig.weights⟩ ∧
    (branchCheck pre orig P).tailBlk.body = [] ∧
    (branchCheck pre orig P).tailBlk.term = .condbr orig := by
  have hlen : (pre ++ [COp.ptestnzc (.shadowRef P) .allOnes,
      .icmpEq (.headRef pre.length) (.cint 1)]).length = pre.length + 2 := by
    simp
  refine ⟨rfl, ?_, rfl, rfl, rfl, ?_, rfl⟩
  · show (pre ++ [COp.ptestnzc (.shadowRef P) .allOnes,
        .icmpEq (.headRef pre.length) (.cint 1)]).take (pre.length + 2) = _
    rw [← hlen, List.take_length]
  · show (pre ++ [COp.ptestnzc (.shadowRef P) .allOnes,
        .icmpEq (.headRef pre.length) (.cint 1)]).drop (pre.length + 2) = _
    rw [← hlen, List.drop_length]

/-- Claim C3: when every incoming value of the original φ is non-opaque,
the rewired shadow φ has exactly the predecessor-block list of the
original; and for a predecessor block that hosted a split-block branch
check, the φ fix-up adds exactly one extra incoming edge, from the check
block, binding the identical value the φ already carries for the
original block. -/
theorem C3_phi_preds (m : SMap) (inc : List (Nat × Val))
    (out : List (Nat × Shadow)) (hrun : rewireOnePhi m inc = some out)
    (hop : ∀ p ∈ inc, getSimd m p.2 false ≠ .noShadow) :
    out.map Prod.fst = inc.map Prod.fst ∧
    ∀ borig bchk v, List.lookup borig out = some v →
      bchk ∉ out.map Prod.fst →
      phiAddCheckEdge out borig bchk = out ++ [(bchk, v)] ∧
      (phiAddCheckEdge out borig bchk).map Prod.fst
        = out.map Prod.fst ++ [bchk] ∧
      List.count bchk ((phiAddCheckEdge out borig bchk).map Prod.fst) = 1 := by
  constructor
  · induction inc generalizing out with
    | nil =>
      simp only [rewireOnePhi] at hrun
      cases hrun
      rfl
    | cons p rest ih =>
      obtain ⟨b, v⟩ := p
      rcases hg : getSimd m v false with _ | _ | s
      · simp only [rewireOnePhi, hg] at hrun
        exact Option.noConfusion hrun
      · exact absurd hg (hop (b, v) (List.mem_cons_self _ _))
      · rcases htl : rewireOnePhi m rest with _ | tl
        · simp only [rewireOnePhi, hg, htl] at hrun
          exact Option.noConfusion hrun
        · simp only [rewireOnePhi, hg, htl] at hrun
          cases hrun
          have := ih tl htl (fun q hq => hop q (List.mem_cons_of_mem _ hq))
          simp [this]
  · intro borig bchk v hlk hnm
    have he : phiAddCheckEdge out borig bchk = out ++ [(bchk, v)] := by
      simp [phiAddCheckEdge, hlk]
    refine ⟨he, ?_, ?_⟩
    · simp [he]
    · rw [he]
      simp only [List.map_append, List.map_cons, List.map_nil,
        List.count_append]
      rw [List.count_eq_zero.mpr hnm]
      simp [List.count_cons]

/-- Witness for C3: a two-predecessor integer φ whose incoming values
both have instruction shadows keeps both predecessors, and the check
block 9 contributes exactly one extra edge with the value already bound
for block 1. -/
theorem C3_phi_preds_witness :
    ([(1, Shadow.instr 50 (.vec (.int 32) 8)),
        (2, Shadow.instr 60 (.vec (.int 32) 8))].map Prod.fst
      = [(1, Val.mk 5 (.int 32) false false true),
          (2, Val.mk 6 (.int 32) false false true)].map Prod.fst) ∧
    phiAddCheckEdge
        [(1, Shadow.instr 50 (.vec (.int 32) 8)),
          (2, Shadow.instr 60 (.vec (.int 32) 8))] 1 9
      = [(1, Shadow.instr 50 (.vec (.int 32) 8)),
          (2, Shadow.instr 60 (.vec (.int 32) 8)),
          (9, Shadow.instr 50 (.vec (.int 32) 8))] := by
  have h := C3_phi_preds
    [(5, .instr 50 (.vec (.int 32) 8)), (6, .instr 60 (.vec (.int 32) 8))]
    [(1, ⟨5, .int 32, false, false, true⟩), (2, ⟨6, .int 32, false, false, true⟩)]
    [(1, .instr 50 (.vec (.int 32) 8)), (2, .instr 60 (.vec (.int 32) 8))]
    (by decide) (by decide)
  exact ⟨h.1, (h.2 1 9 (.instr 50 (.vec (.int 32) 8)) (by decide) (by decide)).1⟩

/-- Claim C7 counterexample: a conditional branch whose condition is the
constant true gets no `dummy_ptest` marker at all — the claim's "before
every conditional branch" fails on constant conditions. -/
theorem C7_counterexample :
    slowInst (.condbr ⟨0, .int 1, true, false, false⟩) = ([], []) := by
  decide

/-- Claim C7 (amended): the native-cost variant inserts exactly one
`dummy_extract` before every non-constant load, store and atomic
operand, one `dummy_broadcast` after every load and atomic, and one
`dummy_ptest` before every conditional branch whose condition is not a
constant (a constant-condition branch gets nothing), and touches no
other instruction. -/
theorem C7_native_markers :
    (∀ c : Val, c.isConst = false →
      slowInst (.condbr c) = ([.dummyPtest], [])) ∧
    (∀ c : Val, c.isConst = true → slowInst (.condbr c) = ([], [])) ∧
    (∀ a rt, (slowInst (.load a rt)).2 = [.dummyBroadcast] ∧
      (slowInst (.load a rt)).1.length = (if a.isConst then 0 else 1) ∧
      ∀ x ∈ (slowInst (.load a rt)).1, x = .dummyExtract) ∧
    (∀ v p, (slowInst (.store v p)).2 = [] ∧
      (slowInst (.store v p)).1.length
        = (if p.isConst then 0 else 1) + (if v.isConst then 0 else 1) ∧
      ∀ x ∈ (slowInst (.store v p)).1, x = .dummyExtract) ∧
    (∀ p c n, (slowInst (.cmpxchg p c n)).2 = [.dummyBroadcast] ∧
      (slowInst (.cmpxchg p c n)).1.length
        = (if p.isConst then 0 else 1) + (if c.isConst then 0 else 1)
          + (if n.isConst then 0 else 1) ∧
      ∀ x ∈ (slowInst (.cmpxchg p c n)).1, x = .dummyExtract) ∧
    (∀ p v, (slowInst (.rmw p v)).2 = [.dummyBroadcast] ∧
      (slowInst (.rmw p v)).1.length
        = (if p.isConst then 0 else 1) + (if v.isConst then 0 else 1) ∧
      ∀ x ∈ (slowInst (.rmw p v)).1, x = .dummyExtract) ∧
    (∀ callee args rt, slowInst (.call callee args rt) = ([], [])) ∧
    slowInst .uncondbr = ([], []) := by
  refine ⟨?_, ?_, ?_, ?_, ?_, ?_, fun _ _ _ => rfl, rfl⟩
  · intro c hc; simp [slowInst, hc]
  · intro c hc; simp [slowInst, hc]
  · intro a rt
    rcases h : a.isConst with _ | _ <;> simp [slowInst, h]
  · intro v p
    rcases h1 : p.isConst with _ | _ <;> rcases h2 : v.isConst with _ | _ <;>
      simp [slowInst, h1, h2]
  · intro p c n
    rcases h1 : p.isConst with _ | _ <;> rcases h2 : c.isConst with _ | _ <;>
      rcases h3 : n.isConst with _ | _ <;> simp [slowInst, h1, h2, h3]
  · intro p v
    rcases h1 : p.isConst with _ | _ <;> rcases h2 : v.isConst with _ | _ <;>
      simp [slowInst, h1, h2]

/-- Witness for C7 at a branch on a non-constant condition: exactly one
`dummy_ptest` before it. -/
theorem C7_native_markers_witness :
    slowInst (.condbr ⟨3, .int 1, false, false, true⟩)
      = ([.dummyPtest], []) :=
  C7_native_markers.1 ⟨3, .int 1, false, false, true⟩ rfl

/-- Claim C8 counterexample: the variants do not accept an identical
option set — the full hardener accepts `no-check-load` but the FP-only
hardener does not, and the native-cost variant accepts none of the
options. -/
theorem C8_counterexample :
    "no-check-load" ∈ avxswiftOpts ∧
    "no-check-load" ∉ avxfloatswiftOpts ∧
    avxfloatswiftOpts ≠ avxswiftOpts ∧
    slownativeOpts ≠ avxswiftOpts := by
  refine ⟨by decide, by decide, by decide, by decide⟩

/-- Claim C8 (amended): the full hardener accepts `no-check-all` and the
five per-sink disables; the FP-only hardener accepts the same set minus
`no-check-load`; the native-cost variant accepts none. -/
theorem C8_variant_options :
    avxswiftOpts
      = ["no-check-all", "no-check-branch", "no-check-load",
          "no-check-store", "no-check-atomic", "no-check-call"] ∧
    avxfloatswiftOpts = avxswiftOpts.erase "no-check-load" ∧
    slownativeOpts = [] := by
  refine ⟨rfl, by decide, rfl⟩

/-- After the flag is set, the loop shadows no more arguments. -/
theorem runLoop_true_no_args (s : List (Nat × Nat)) :
    (runLoop true s).countP Event.isArgs = 0 := by
  induction s with
  | nil => rfl
  | cons p rest ih => simp [runLoop, List.countP_cons, Event.isArgs, ih]

/-- The splat sequence of one value, characterized. -/
theorem createSimdValueOps_eq (v : Val) (ops : List SimOp)
    (h : createSimdValueOps v = some ops) :
    ∃ n, (getSimdNum (if v.ty = .int 1 then LTy.int 64 else v.ty)).toOption
        = some n ∧
      ops = (if v.ty = .int 1 then [SimOp.zextTo64 v] else []) ++
        (List.range n).map (fun i => SimOp.insertLane i v) := by
  unfold createSimdValueOps at h
  rcases hg : (getSimdNum (if v.ty = .int 1 then LTy.int 64 else v.ty)).toOption
    with _ | n
  · rw [hg] at h; exact Option.noConfusion h
  · rw [hg] at h; cases h; exact ⟨n, rfl, rfl⟩

/-- Claim C10: the argument-shadowing step runs exactly once per
function, positioned before the rewrite of the very first instruction of
the entry block; the full variant splats every argument lane by lane
(widening i1 first) and registers each, and the FP-only variant does the
same for exactly the float and double arguments. -/
theorem C10_args_once :
    (∀ (i0 : Instr) (b0 : List Instr) (rest : List (List Instr)),
      (runEvents ((i0 :: b0) :: rest)).take 1 = [.argsShadowed 0 0] ∧
      (runEvents ((i0 :: b0) :: rest)).countP Event.isArgs = 1) ∧
    (∀ args out, simdArgsFull args = some out →
      out.map Prod.fst = args ∧
      ∀ a ops, (a, ops) ∈ out →
        ∃ n, (getSimdNum (if a.ty = .int 1 then LTy.int 64 else a.ty)).toOption
            = some n ∧
          ops = (if a.ty = .int 1 then [SimOp.zextTo64 a] else []) ++
            (List.range n).map (fun i => SimOp.insertLane i a)) ∧
    (∀ args,
      (simdArgsFP args).map Prod.fst
        = args.filter (fun a => decide (a.ty = .flt ∨ a.ty = .dbl)) ∧
      ∀ a ops, (a, ops) ∈ simdArgsFP args →
        (a.ty = .flt ∨ a.ty = .dbl) ∧
        ops = (List.range (getSimdNumFP a.ty)).map
          (fun i => SimOp.insertLane i a)) := by
  refine ⟨?_, ?_, ?_⟩
  · intro i0 b0 rest
    obtain ⟨s, hs⟩ : ∃ s, instStream ((i0 :: b0) :: rest) = (0, 0) :: s :=
      ⟨_, rfl⟩
    rw [runEvents, hs]
    exact ⟨rfl, by simp [runLoop, List.countP_cons, Event.isArgs,
      runLoop_true_no_args]⟩
  · intro args
    induction args with
    | nil =>
      intro out h
      simp only [simdArgsFull] at h
      cases h
      exact ⟨rfl, fun a ops h => by simp at h⟩
    | cons a rest ih =>
      intro out h
      rcases hc : createSimdValueOps a with _ | ops0
      · simp only [simdArgsFull, hc, Option.bind_eq_bind,
          Option.none_bind] at h
        exact Option.noConfusion h
      · rcases ht : simdArgsFull rest with _ | tl
        · simp only [simdArgsFull, hc, ht, Option.bind_eq_bind,
            Option.some_bind, Option.none_bind] at h
          exact Option.noConfusion h
        · simp only [simdArgsFull, hc, ht, Option.bind_eq_bind,
            Option.some_bind] at h
          cases h
          obtain ⟨ih1, ih2⟩ := ih tl ht
          refine ⟨by simp [ih1], ?_⟩
          intro b ops hb
          rcases List.mem_cons.mp hb with hb | hb
          · obtain ⟨rfl, rfl⟩ := Prod.mk.injEq .. ▸ hb
            exact createSimdValueOps_eq _ _ hc
          · exact ih2 b ops hb
  · intro args
    constructor
    · rw [simdArgsFP, List.map_map]
      exact List.map_id' _
    · intro a ops hb
      simp only [simdArgsFP, List.mem_map] at hb
      obtain ⟨b, hbf, hbe⟩ := hb
      obtain ⟨rfl, rfl⟩ := Prod.mk.injEq .. ▸ hbe
      have hpf := List.of_mem_filter hbf
      exact ⟨by simpa using hpf, rfl⟩

/-- Witness for C10 with one i1 argument: it is splatted with a
zero-extension and four insert-element lanes, and the FP-only variant
splats exactly the single double argument of a mixed argument list. -/
theorem C10_args_once_witness :
    ([((⟨7, .int 1, false, false, false⟩ : Val),
        [SimOp.zextTo64 ⟨7, .int 1, false, false, false⟩,
          .insertLane 0 ⟨7, .int 1, false, false, false⟩,
          .insertLane 1 ⟨7, .int 1, false, false, false⟩,
          .insertLane 2 ⟨7, .int 1, false, false, false⟩,
          .insertLane 3 ⟨7, .int 1, false, false, false⟩])].map Prod.fst
      = [(⟨7, .int 1, false, false, false⟩ : Val)]) ∧
    (simdArgsFP [⟨0, .int 32, false, false, false⟩,
        ⟨1, .dbl, false, false, false⟩]).map Prod.fst
      = [⟨1, .dbl, false, false, false⟩] := by
  constructor
  · exact (C10_args_once.2.1 [⟨7, .int 1, false, false, false⟩] _
      (by decide)).1
  · rw [(C10_args_once.2.2 [⟨0, .int 32, false, false, false⟩,
      ⟨1, .dbl, false, false, false⟩]).1]
    decide

end Elzar

